import Mathlib

/-!
Shallow embedding of `src/models.py` (pandas analysis pipeline).

Data frames are modelled column-major.  A cell of a raw spreadsheet is
either missing (`NaN` / `None`), a number (modelled as `Rat`; floating
point width is immaterial to the verified properties), or a text value.
Non-finite float literals ("inf", "nan") are out of scope of the string
parser and are treated as non-numeric text.

Python exceptions propagating out of a function are modelled by
`Except String`; the message strings are schematic.
-/

inductive Cell where
  | na : Cell
  | num : Rat → Cell
  | txt : String → Cell
deriving DecidableEq, Repr

def Cell.isNa : Cell → Bool
  | Cell.na => true
  | _ => false

def Cell.isNum : Cell → Bool
  | Cell.num _ => true
  | _ => false

/-- Numeric cells holding a mathematical integer (pandas `int` dtype). -/
def Cell.isIntNum : Cell → Bool
  | Cell.num q => q.den = 1
  | _ => false

def cellNum? : Cell → Option Rat
  | Cell.num q => some q
  | _ => none

/-- Value of a digit string, most significant first. -/
def digitsVal (cs : List Char) : Nat :=
  cs.foldl (fun n c => n * 10 + (c.toNat - 48)) 0

/-- Exponent part of a float literal (after the `e`). -/
def parseExp (cs : List Char) : Option Int :=
  match cs with
  | '+' :: ds => if ds ≠ [] ∧ ds.all Char.isDigit then some (digitsVal ds) else none
  | '-' :: ds => if ds ≠ [] ∧ ds.all Char.isDigit then some (-(digitsVal ds : Int)) else none
  | ds => if ds ≠ [] ∧ ds.all Char.isDigit then some (digitsVal ds) else none

def applyExp (q : Rat) (e : Int) : Rat :=
  if 0 ≤ e then q * (10 : Rat) ^ e.toNat else q / (10 : Rat) ^ (-e).toNat

/-- Mantissa (and optional exponent) of a float literal, after the sign. -/
def parseAfterSign (cs : List Char) : Option Rat :=
  let ip := cs.takeWhile Char.isDigit
  let r1 := cs.dropWhile Char.isDigit
  match r1 with
  | [] => if ip.isEmpty then none else some (digitsVal ip : Rat)
  | '.' :: r2 =>
    let fp := r2.takeWhile Char.isDigit
    let r3 := r2.dropWhile Char.isDigit
    if ip.isEmpty && fp.isEmpty then none
    else
      let m : Rat := (digitsVal ip : Rat) + (digitsVal fp : Rat) / (10 : Rat) ^ fp.length
      match r3 with
      | [] => some m
      | 'e' :: r4 => (parseExp r4).map (applyExp m)
      | 'E' :: r4 => (parseExp r4).map (applyExp m)
      | _ => none
  | 'e' :: r4 => if ip.isEmpty then none else (parseExp r4).map (applyExp (digitsVal ip : Rat))
  | 'E' :: r4 => if ip.isEmpty then none else (parseExp r4).map (applyExp (digitsVal ip : Rat))
  | _ => none

/-- Whitespace trimming on the character list of a string. -/
def trimChars (cs : List Char) : List Char :=
  ((cs.dropWhile Char.isWhitespace).reverse.dropWhile Char.isWhitespace).reverse

/-- Model of the Python float parser used by `pd.to_numeric` (which
tolerates surrounding whitespace and an optional sign). -/
def parseRat (s : String) : Option Rat :=
  match trimChars s.data with
  | '+' :: cs => parseAfterSign cs
  | '-' :: cs => (parseAfterSign cs).map Neg.neg
  | cs => parseAfterSign cs

/-- One application of `pd.to_numeric(errors="coerce")` to a scalar cell:
numbers stay, parseable text becomes a number, everything else `NaN`. -/
def coerceCell : Cell → Cell
  | Cell.na => Cell.na
  | Cell.num q => Cell.num q
  | Cell.txt s =>
    match parseRat s with
    | some q => Cell.num q
    | none => Cell.na

/-- Truncation toward zero, as in numpy `astype(int)` on a float. -/
def ratTrunc (q : Rat) : Int := q.num.tdiv (q.den : Int)

def truncCell : Cell → Cell
  | Cell.num q => Cell.num ((ratTrunc q : Int) : Rat)
  | c => c

/-- A raw sheet: the rectangular grid `pd.ExcelFile.parse` hands to
`robust_clean_data`, stored column-major (each inner list is one column,
the first entry being the cell of the sheet's first row). -/
structure Sheet where
  cols : List (List Cell)
deriving DecidableEq, Repr

/-- A named data column of a frame. -/
structure Col where
  name : Cell
  cells : List Cell
deriving DecidableEq, Repr

/-- A pandas `DataFrame`, column-major. -/
structure Frame where
  cols : List Col
deriving DecidableEq, Repr

def nRows (f : Frame) : Nat :=
  ((f.cols.head?).map (fun c => c.cells.length)).getD 0

/-- Keep only the elements whose index satisfies `p`, counting from `i`. -/
def filterIdxFrom (p : Nat → Bool) : Nat → List α → List α
  | _, [] => []
  | i, x :: xs => if p i then x :: filterIdxFrom p (i + 1) xs else filterIdxFrom p (i + 1) xs

def filterIdx (p : Nat → Bool) (xs : List α) : List α := filterIdxFrom p 0 xs

/-- Lines 40-41: `df.iloc[1:]` with `df.iloc[0]` as the new header. -/
def headerSplit (df : Sheet) : Frame :=
  ⟨df.cols.map (fun c => ⟨c.headD Cell.na, c.tail⟩)⟩

/-- Line 42: `dropna(axis=1, how="all")`. -/
def dropAllNaCols (f : Frame) : Frame :=
  ⟨f.cols.filter (fun c => c.cells.any (fun x => !x.isNa))⟩

/-- A row is kept by `dropna(axis=0, how="any")` iff every column holds a
non-missing value at its index. -/
def rowMask (f : Frame) (i : Nat) : Bool :=
  f.cols.all (fun c => !(c.cells.getD i Cell.na).isNa)

/-- Lines 43 and 57: `dropna(axis=0, how="any")`. -/
def dropAnyNaRows (f : Frame) : Frame :=
  ⟨f.cols.map (fun c => ⟨c.name, filterIdx (rowMask f) c.cells⟩)⟩

/-- Line 44: the label rewrite done by `rename(columns={columns[0]: "Year"})`
(it renames every column whose label equals the first column's label). -/
def renameC (old : Cell) (c : Col) : Col :=
  ⟨if c.name = old then Cell.txt "Year" else c.name, c.cells⟩

/-- Rows kept by line 46's `dropna(subset=["Year"])`. -/
def yearMask (yc : List Cell) (i : Nat) : Bool :=
  !(yc.getD i Cell.na).isNa

/-- Line 52 applied to a whole column. -/
def coerceCol (c : Col) : Col := ⟨c.name, c.cells.map coerceCell⟩

/-- Lines 49-57: the numeric-coercion loop and final selection.
With `errors="coerce"` the coercion of a column of scalar cells never
raises, so every uniquely-labelled column is appended to
`numeric_columns`; a duplicated label makes `df_cleaned[col]` a
two-column `DataFrame`, on which `pd.to_numeric` raises, the `except`
fires and the column is skipped.  The trailing `.dropna()` then removes
every row containing a failed coercion. -/
def finalSelect (y : Col) (rest : List Col) : Frame :=
  ⟨y :: (rest.filter
      (fun c => decide ((y :: rest).countP (fun c2 => decide (c2.name = c.name)) = 1))).map
      coerceCol⟩

/-- Lines 45-47 applied after the rename: coerce the Year column, drop
the rows whose Year failed coercion (`dropna(subset=["Year"])`), then
truncate Year to integers (`astype(int)`). -/
def yearStage (d0 : Col) (drest : List Col) : Frame :=
  ⟨⟨Cell.txt "Year", (filterIdx (yearMask (d0.cells.map coerceCell)) (d0.cells.map coerceCell)).map truncCell⟩ ::
    (drest.map (renameC d0.name)).map
      (fun c => ⟨c.name, filterIdx (yearMask (d0.cells.map coerceCell)) c.cells⟩)⟩

/-- The numeric loop and final selection, fed with the frame produced by
the Year stage (whose column list is never empty). -/
def finalSelectF (f : Frame) : Frame :=
  match f.cols with
  | [] => ⟨[]⟩
  | y :: rest => finalSelect y rest

/-- Lines 44-57 of `robust_clean_data`, starting from the frame obtained
after the first row/column drops.  The `if` models line 45: with a
duplicated label, `df_cleaned["Year"]` is a `DataFrame` and
`pd.to_numeric` raises a `TypeError`. -/
def cleanStage2 (f : Frame) : Except String Frame :=
  match f.cols with
  | [] => .error "IndexError: index 0 is out of bounds (columns)"
  | d0 :: drest =>
    if ((⟨Cell.txt "Year", d0.cells⟩ : Col) :: drest.map (renameC d0.name)).countP
        (fun c => decide (c.name = Cell.txt "Year")) = 1 then
      .ok (dropAnyNaRows (finalSelectF (yearStage d0 drest)))
    else .error "TypeError: to_numeric on a duplicated Year label"

/-- Lines 39-58, `robust_clean_data`.  `df.iloc[0]` raises on a sheet
without rows; `columns[0]` raises once every column has been dropped. -/
def robust_clean_data (df : Sheet) : Except String Frame :=
  match df.cols with
  | [] => .error "IndexError: single positional indexer is out-of-bounds"
  | c0 :: _ =>
    if c0.isEmpty then .error "IndexError: single positional indexer is out-of-bounds"
    else cleanStage2 (dropAnyNaRows (dropAllNaCols (headerSplit df)))

/-- Lines 61-62, `validate_data`. -/
def validate_data (df : Frame) (min_rows : Nat) : Bool :=
  decide (min_rows ≤ nRows (dropAnyNaRows df))

/-- Decidable equality of fallible results, used to evaluate the model
on concrete inputs. -/
instance {e a : Type} [DecidableEq e] [DecidableEq a] : DecidableEq (Except e a) := fun x y =>
  match x, y with
  | .error e1, .error e2 =>
    if h : e1 = e2 then isTrue (by rw [h]) else isFalse (fun hc => by cases hc; exact h rfl)
  | .error _, .ok _ => isFalse (fun hc => by cases hc)
  | .ok _, .error _ => isFalse (fun hc => by cases hc)
  | .ok a1, .ok a2 =>
    if h : a1 = a2 then isTrue (by rw [h]) else isFalse (fun hc => by cases hc; exact h rfl)

/-- Rendering of a column label inside the f-string
`f"{var1} causes {var2}"`.  Text labels render as themselves; the
rendering of numeric labels is schematic (Python would print the float
repr), which only affects which label sets produce colliding keys. -/
def cellStr : Cell → String
  | Cell.txt s => s
  | Cell.num q => toString q
  | Cell.na => "nan"

/-- Python-dict insertion: an existing key keeps its position and gets the
new value, a fresh key is appended. -/
def dictInsert (d : List (String × α)) (k : String) (v : α) : List (String × α) :=
  if d.any (fun e => decide (e.1 = k)) then
    d.map (fun e => if e.1 = k then (k, v) else e)
  else d ++ [(k, v)]

def dictGet? (d : List (String × α)) (k : String) : Option α :=
  (d.find? (fun e => decide (e.1 = k))).map Prod.snd

/-- Column selection `df[[a, b]]`: for each requested label, all columns
carrying it, in the order of the request. -/
def selectCols (f : Frame) (names : List Cell) : Frame :=
  ⟨(names.map (fun n => f.cols.filter (fun c => decide (c.name = n)))).flatten⟩

/-- Result of one causality test: per-lag p-values, or the failure marker
recorded by the `except` branch. -/
inductive CResult where
  | pvals : List Rat → CResult
  | err : String → CResult
deriving DecidableEq, Repr

/-- The black-box causality primitive (`grangercausalitytests` from
statsmodels, outside this repository).  It receives the two-column
sub-frame and the lag bound; it either raises (modelled by `.error`) or
yields the `ssr_ftest` p-value for every lag. -/
def GrangerPrim : Type := Frame → Nat → Except String (Nat → Rat)

/-- Round half to even at `prec` decimal places, as Python's `round`. -/
def roundHalfEven (q : Rat) : Int :=
  let f := ⌊q⌋
  let r := q - (f : Rat)
  if r < 1 / 2 then f else if 1 / 2 < r then f + 1 else if f % 2 = 0 then f else f + 1

def round4 (q : Rat) : Rat := (roundHalfEven (q * 10000) : Rat) / 10000

def grangerKey (a b : Cell) : String := cellStr a ++ " causes " ++ cellStr b

/-- Body of the `try` block of lines 12-19 for one ordered pair. -/
def grangerEntry (prim : GrangerPrim) (data : Frame) (max_lag : Nat) (a b : Cell) : CResult :=
  match prim (selectCols data [a, b]) max_lag with
  | .ok p => CResult.pvals ((List.range max_lag).map (fun k => round4 (p (k + 1))))
  | .error e => CResult.err ("Error: " ++ e)

/-- The candidate variables `data.columns[1:]`. -/
def grangerVars (data : Frame) : List Cell := data.cols.tail.map Col.name

/-- Lines 6-20, `granger_causality_analysis`. -/
def granger_causality_analysis (prim : GrangerPrim) (data : Frame) (max_lag : Nat) :
    List (String × CResult) :=
  let vars := grangerVars data
  vars.foldl
    (fun results var1 =>
      vars.foldl
        (fun results var2 =>
          if var1 = var2 then results
          else dictInsert results (grangerKey var1 var2) (grangerEntry prim data max_lag var1 var2))
        results)
    []

/-- Label lookup `data[variable]` (cells of the matching column).  Cleaned
frames have unique labels; theorems about this model therefore carry a
label-uniqueness hypothesis. -/
def getCol (f : Frame) (n : Cell) : List Cell :=
  ((f.cols.find? (fun c => decide (c.name = n))).map Col.cells).getD []

def listMean (xs : List Rat) : Rat := xs.sum / (xs.length : Rat)

/-- The square of `np.std` (population variance).  The standard deviation
itself is irrational in general; the model carries the variance instead,
which determines it (both are zero together, and lengths agree). -/
def listVar (xs : List Rat) : Rat :=
  ((xs.map (fun x => (x - listMean xs) ^ 2)).sum) / (xs.length : Rat)

/-- The random source behind `np.random.normal(mean, std_dev,
forecast_period)`: given the fitted mean and (squared) spread, trial
index and horizon step, a draw. -/
def Rng : Type := Rat → Rat → Nat → Nat → Rat

/-- Lines 23-36, `monte_carlo_simulation`.  `dropna()` keeps non-missing
values of any type; `np.mean` then raises on a non-numeric value (this
cannot happen on a cleaned frame, whose cells are all numeric). -/
def monte_carlo_simulation (rng : Rng) (data : Frame) (varname : Cell)
    (num_simulations forecast_period : Nat) :
    Except String (Option (List (List Rat) × List Rat × List Rat)) :=
  let historical := (getCol data varname).filter (fun x => !x.isNa)
  if historical.length < 2 then .ok none
  else
    match historical.mapM cellNum? with
    | none => .error "TypeError: mean of non-numeric values"
    | some xs =>
      let mean := listMean xs
      let sdev := listVar xs
      let simulations :=
        (List.range num_simulations).map
          (fun i => (List.range forecast_period).map (fun j => rng mean sdev i j))
      let colAt := fun j => simulations.map (fun row => row.getD j 0)
      let forecast_mean := (List.range forecast_period).map (fun j => listMean (colAt j))
      let forecast_std_dev := (List.range forecast_period).map (fun j => listVar (colAt j))
      .ok (some (simulations, forecast_mean, forecast_std_dev))

inductive SimResult where
  | insufficient : SimResult
  | done : List (List Rat) → List Rat → List Rat → SimResult
deriving DecidableEq, Repr

inductive SheetResult where
  | err : String → SheetResult
  | res : List (String × CResult) → List (String × SimResult) → SheetResult
deriving DecidableEq, Repr

/-- Lines 113-126: the simulation loop over `key_variables`. -/
def simsFold (rng : Rng) (cleaned : Frame) (ns fp : Nat) :
    List String → List (String × SimResult) → Except String (List (String × SimResult))
  | [], acc => .ok acc
  | var :: rest, acc =>
    if cleaned.cols.any (fun c => decide (c.name = Cell.txt var)) then
      match monte_carlo_simulation rng cleaned (Cell.txt var) ns fp with
      | .error e => .error e
      | .ok (some (s, m, sd)) => simsFold rng cleaned ns fp rest (dictInsert acc var (SimResult.done s m sd))
      | .ok none => simsFold rng cleaned ns fp rest (dictInsert acc var SimResult.insufficient)
    else simsFold rng cleaned ns fp rest acc

/-- The `for sheet, df in sheets_data.items()` loop of lines 101-132. -/
def analyzeGo (prim : GrangerPrim) (rng : Rng) (kv : List String) (ml ns fp : Nat) :
    List (String × Sheet) → List (String × SheetResult) →
    Except String (List (String × SheetResult))
  | [], acc => .ok acc
  | (sheet, df) :: rest, acc =>
    match robust_clean_data df with
    | .error e => .error e
    | .ok cleaned =>
      if validate_data cleaned 10 then
        match simsFold rng cleaned ns fp kv [] with
        | .error e => .error e
        | .ok sims =>
          analyzeGo prim rng kv ml ns fp rest
            (dictInsert acc sheet
              (SheetResult.res (granger_causality_analysis prim cleaned ml) sims))
      else
        analyzeGo prim rng kv ml ns fp rest
          (dictInsert acc sheet (SheetResult.err "Insufficient data for analysis"))

/-- Lines 101-132, `analyze_sheets`.  `sheets_data` is a Python dict,
modelled as its (duplicate-free) item list in insertion order. -/
def analyze_sheets (prim : GrangerPrim) (rng : Rng) (sheets_data : List (String × Sheet))
    (key_variables : List String) (max_lag num_simulations forecast_period : Nat) :
    Except String (List (String × SheetResult)) :=
  analyzeGo prim rng key_variables max_lag num_simulations forecast_period sheets_data []

/-- A cleaned frame written back out as a raw sheet: its header becomes
the sheet's first row, as the `RawSheet` data model prescribes. -/
def rawify (f : Frame) : Sheet := ⟨f.cols.map (fun c => c.name :: c.cells)⟩

/-- The label list of a frame. -/
def frameNames (f : Frame) : List Cell := f.cols.map Col.name

/-- The invariant satisfied by every frame `robust_clean_data` returns. -/
def CleanedInv (f : Frame) : Prop :=
  ∃ y rest, f.cols = y :: rest ∧
    y.name = Cell.txt "Year" ∧
    (∀ x ∈ y.cells, x.isIntNum = true) ∧
    (∀ c ∈ rest, (∀ x ∈ c.cells, x.isNum = true) ∧ c.cells.length = y.cells.length) ∧
    (frameNames f).Nodup

/-- Folding `dictInsert` over a list of entries. -/
def dictInsertMany (d : List (String × α)) (l : List (String × α)) : List (String × α) :=
  l.foldl (fun r e => dictInsert r e.1 e.2) d

/-- The ordered variable pairs visited by the nested granger loops. -/
def grangerPairs (vars : List Cell) : List (Cell × Cell) :=
  vars.flatMap (fun a => (vars.filter (fun b => !decide (a = b))).map (fun b => (a, b)))

/-- The flat list of per-pair entries of the granger loop. -/
def grangerTable (prim : GrangerPrim) (data : Frame) (ml : Nat) : List (String × CResult) :=
  (grangerPairs (grangerVars data)).map
    (fun p => (grangerKey p.1 p.2, grangerEntry prim data ml p.1 p.2))

/-- The keys those entries carry, in loop order. -/
def grangerKeyList (data : Frame) : List String :=
  (grangerPairs (grangerVars data)).map (fun p => grangerKey p.1 p.2)

/-! Concrete instances used by the counterexamples and witnesses. -/

/-- A primitive that always succeeds with p-value 0. -/
def prim0 : GrangerPrim := fun _ _ => .ok (fun _ => 0)

/-- A primitive that raises exactly when the first column of the sub-frame
it receives is labelled "A" (so it fails for the ordered pair whose cause
is "A" and succeeds for the reverse pair). -/
def prim1 : GrangerPrim := fun f _ =>
  if f.cols.head?.map Col.name = some (Cell.txt "A") then .error "boom" else .ok (fun _ => 0)

/-- A primitive that always raises (e.g. a singular-matrix failure). -/
def primE : GrangerPrim := fun _ _ => .error "singular matrix"

/-- A degenerate random source. -/
def rng0 : Rng := fun _ _ _ _ => 0

/-- A sheet whose only row is its header: every column is dropped by
`dropna(axis=1, how="all")` and `columns[0]` then raises. -/
def sheetHdrOnly : Sheet := ⟨[[Cell.txt "Y"]]⟩

/-- A well-behaved two-column sheet (header row + two numeric rows). -/
def sheetW : Sheet :=
  ⟨[[Cell.txt "Y", Cell.num 2000, Cell.num 2001], [Cell.txt "A", Cell.num 1, Cell.num 2]]⟩

/-- The cleaned frame produced from `sheetW`. -/
def frameW : Frame :=
  ⟨[⟨Cell.txt "Year", [Cell.num 2000, Cell.num 2001]⟩, ⟨Cell.txt "A", [Cell.num 1, Cell.num 2]⟩]⟩

/-- A sheet whose data columns are named "A" and "A causes A": two distinct
names whose granger keys collide. -/
def sheet3 : Sheet :=
  ⟨[[Cell.txt "Y", Cell.num 2000, Cell.num 2001], [Cell.txt "A", Cell.num 1, Cell.num 2],
    [Cell.txt "A causes A", Cell.num 2, Cell.num 4]]⟩

/-- The cleaned frame produced from `sheet3`. -/
def frame3 : Frame :=
  ⟨[⟨Cell.txt "Year", [Cell.num 2000, Cell.num 2001]⟩, ⟨Cell.txt "A", [Cell.num 1, Cell.num 2]⟩,
    ⟨Cell.txt "A causes A", [Cell.num 2, Cell.num 4]⟩]⟩

/-- A cleaned frame with two non-colliding variable names. -/
def frameW3 : Frame :=
  ⟨[⟨Cell.txt "Year", [Cell.num 2000, Cell.num 2001]⟩, ⟨Cell.txt "A", [Cell.num 1, Cell.num 2]⟩,
    ⟨Cell.txt "B", [Cell.num 2, Cell.num 4]⟩]⟩

/-- A sheet whose single data column holds only the non-coercible text "x". -/
def sheet6 : Sheet := ⟨[[Cell.txt "Y", Cell.num 2000], [Cell.txt "A", Cell.txt "x"]]⟩

/-- The cleaned frame produced from `sheet6`: the column "A" is retained
although none of its values coerced, and the final row drop empties it. -/
def frame6 : Frame := ⟨[⟨Cell.txt "Year", []⟩, ⟨Cell.txt "A", []⟩]⟩

/-- A cleaned frame whose variable "A" has the single historical value 5. -/
def frameSingle : Frame :=
  ⟨[⟨Cell.txt "Year", [Cell.num 2000]⟩, ⟨Cell.txt "A", [Cell.num 5]⟩]⟩


/-! Helper lemmas about `filterIdx`. -/

theorem length_filterIdxFrom (p : Nat → Bool) (xs : List α) :
    ∀ i, (filterIdxFrom p i xs).length
      = List.countP (fun j => p (i + j)) (List.range xs.length) := by
  induction xs with
  | nil => intro i; simp [filterIdxFrom]
  | cons x xs ih =>
    intro i
    have h2 : List.countP ((fun j => p (i + j)) ∘ Nat.succ) (List.range xs.length)
        = List.countP (fun j => p (i + 1 + j)) (List.range xs.length) := by
      apply List.countP_congr
      intro y _
      have : i + Nat.succ y = i + 1 + y := by omega
      simp [Function.comp, this]
    simp only [List.length_cons, List.range_succ_eq_map, List.countP_cons, List.countP_map, h2]
    by_cases hp : p i
    · simp [filterIdxFrom, hp, ih (i + 1)]
    · simp [filterIdxFrom, hp, ih (i + 1)]

theorem length_filterIdx (p : Nat → Bool) (xs : List α) :
    (filterIdx p xs).length = List.countP p (List.range xs.length) := by
  have h := length_filterIdxFrom p xs 0
  simpa [filterIdx] using h

theorem countP_range_eq_of_bound {p : Nat → Bool} {m a : Nat}
    (h : ∀ j, p j = true → j < m) (ha : m ≤ a) :
    List.countP p (List.range a) = List.countP p (List.range m) := by
  have hsplit : a = m + (a - m) := by omega
  rw [hsplit, List.range_add, List.countP_append]
  have hz : List.countP p (List.map (fun x => m + x) (List.range (a - m))) = 0 := by
    rw [List.countP_eq_zero]
    intro b hb
    rw [List.mem_map] at hb
    obtain ⟨x, _, rfl⟩ := hb
    intro hpb
    have := h _ hpb
    omega
  omega

theorem mem_filterIdxFrom {p : Nat → Bool} {xs : List α} :
    ∀ {i x}, x ∈ filterIdxFrom p i xs →
      ∃ j, ∃ hj : j < xs.length, x = xs.get ⟨j, hj⟩ ∧ p (i + j) = true := by
  induction xs with
  | nil => intro i x hx; simp [filterIdxFrom] at hx
  | cons y ys ih =>
    intro i x hx
    simp only [filterIdxFrom] at hx
    by_cases hp : p i
    · rw [if_pos hp] at hx
      rcases List.mem_cons.mp hx with h | h
      · exact ⟨0, by simp, by simpa using h, by simpa using hp⟩
      · obtain ⟨j, hj, hxe, hpj⟩ := ih h
        refine ⟨j + 1, by simpa using Nat.succ_lt_succ hj, by simpa using hxe, ?_⟩
        have : i + 1 + j = i + (j + 1) := by omega
        rwa [this] at hpj
    · rw [if_neg hp] at hx
      obtain ⟨j, hj, hxe, hpj⟩ := ih hx
      refine ⟨j + 1, by simpa using Nat.succ_lt_succ hj, by simpa using hxe, ?_⟩
      have : i + 1 + j = i + (j + 1) := by omega
      rwa [this] at hpj

theorem mem_of_mem_filterIdx {p : Nat → Bool} {xs : List α} {x : α}
    (hx : x ∈ filterIdx p xs) : x ∈ xs := by
  obtain ⟨j, hj, rfl, _⟩ := mem_filterIdxFrom (p := p) hx
  exact List.get_mem xs j hj

theorem filterIdxFrom_eq_self {p : Nat → Bool} {xs : List α} :
    ∀ {i}, (∀ j, j < xs.length → p (i + j) = true) → filterIdxFrom p i xs = xs := by
  induction xs with
  | nil => intro i _; simp [filterIdxFrom]
  | cons y ys ih =>
    intro i h
    have hp : p i = true := by simpa using h 0 (by simp)
    simp only [filterIdxFrom, if_pos hp]
    congr 1
    apply ih
    intro j hj
    have h2 := h (j + 1) (by simpa using Nat.succ_lt_succ hj)
    have h3 : i + (j + 1) = i + 1 + j := by omega
    rwa [h3] at h2

theorem filterIdx_eq_self {p : Nat → Bool} {xs : List α}
    (h : ∀ j, j < xs.length → p j = true) : filterIdx p xs = xs := by
  apply filterIdxFrom_eq_self
  simpa using h

/-! Cell-level facts. -/

theorem coerceCell_na_or_num (x : Cell) :
    coerceCell x = Cell.na ∨ ∃ q, coerceCell x = Cell.num q := by
  cases x with
  | na => left; rfl
  | num q => right; exact ⟨q, rfl⟩
  | txt s =>
    simp only [coerceCell]
    cases parseRat s with
    | none => left; rfl
    | some q => right; exact ⟨q, rfl⟩

theorem coerceCell_num (q : Rat) : coerceCell (Cell.num q) = Cell.num q := rfl

theorem truncCell_isIntNum (q : Rat) : (truncCell (Cell.num q)).isIntNum = true := by
  simp [truncCell, Cell.isIntNum, Rat.den_intCast]

theorem isIntNum_isNum {x : Cell} (h : x.isIntNum = true) : x.isNum = true := by
  cases x <;> simp_all [Cell.isIntNum, Cell.isNum]

theorem isIntNum_exists_int {x : Cell} (h : x.isIntNum = true) :
    ∃ n : Int, x = Cell.num (n : Rat) := by
  cases x with
  | na => simp [Cell.isIntNum] at h
  | txt s => simp [Cell.isIntNum] at h
  | num q =>
    refine ⟨q.num, ?_⟩
    have hden : q.den = 1 := by simpa [Cell.isIntNum] using h
    rw [(Rat.den_eq_one_iff q).mp hden]

theorem isNum_not_na {x : Cell} (h : x.isNum = true) : x.isNa = false := by
  cases x <;> simp_all [Cell.isNum, Cell.isNa]

theorem not_na_isNum_of_coerce {w x : Cell} (hx : x = coerceCell w) (h : x.isNa = false) :
    x.isNum = true := by
  rcases coerceCell_na_or_num w with hc | ⟨q, hc⟩
  · rw [hx, hc] at h; simp [Cell.isNa] at h
  · rw [hx, hc]; rfl

/-! Facts about the row mask and `dropna(axis=0)`. -/

theorem rowMask_lt_length {f : Frame} {c : Col} (hc : c ∈ f.cols) {i : Nat}
    (h : rowMask f i = true) : i < c.cells.length := by
  by_contra hge
  push_neg at hge
  have h2 := (List.all_eq_true.mp h) c hc
  rw [List.getD_eq_default _ _ hge] at h2
  simp [Cell.isNa] at h2

theorem rowMask_get_not_na {f : Frame} {c : Col} (hc : c ∈ f.cols) {i : Nat}
    (h : rowMask f i = true) (hlt : i < c.cells.length) :
    (c.cells.get ⟨i, hlt⟩).isNa = false := by
  have h2 := (List.all_eq_true.mp h) c hc
  rw [List.getD_eq_getElem _ _ hlt] at h2
  simpa using h2

theorem dropAnyNaRows_cols {f : Frame} {c' : Col} (h : c' ∈ (dropAnyNaRows f).cols) :
    ∃ c ∈ f.cols, c' = ⟨c.name, filterIdx (rowMask f) c.cells⟩ := by
  simp only [dropAnyNaRows, List.mem_map] at h
  obtain ⟨c, hc, rfl⟩ := h
  exact ⟨c, hc, rfl⟩

theorem dropAnyNaRows_cell_mem {f : Frame} {c : Col} (hc : c ∈ f.cols) {x : Cell}
    (hx : x ∈ filterIdx (rowMask f) c.cells) : x ∈ c.cells ∧ x.isNa = false := by
  obtain ⟨j, hj, rfl, hpj⟩ := mem_filterIdxFrom (p := rowMask f) hx
  have hpj' : rowMask f j = true := by simpa using hpj
  exact ⟨List.get_mem _ _ _, rowMask_get_not_na hc hpj' hj⟩

theorem dropAnyNaRows_length_eq {f : Frame} {c1 c2 : Col}
    (h1 : c1 ∈ (dropAnyNaRows f).cols) (h2 : c2 ∈ (dropAnyNaRows f).cols) :
    c1.cells.length = c2.cells.length := by
  obtain ⟨a, ha, rfl⟩ := dropAnyNaRows_cols h1
  obtain ⟨b, hb, rfl⟩ := dropAnyNaRows_cols h2
  simp only [length_filterIdx]
  have hbound : ∀ j, rowMask f j = true → j < min a.cells.length b.cells.length := by
    intro j hj
    exact lt_min (rowMask_lt_length ha hj) (rowMask_lt_length hb hj)
  rw [countP_range_eq_of_bound hbound (Nat.min_le_left _ _),
    countP_range_eq_of_bound hbound (Nat.min_le_right _ _)]

/-! The invariant satisfied by every frame `robust_clean_data` returns. -/

theorem count_names_eq_countP (a : Cell) (l : List Col) :
    List.count a (l.map Col.name) = l.countP (fun c => decide (c.name = a)) := by
  rw [List.count_eq_countP, List.countP_map]
  apply List.countP_congr
  intro c _
  simp [Function.comp]

theorem retained_countP {y : Col} {rest : List Col} {c : Col}
    (hc : c ∈ rest.filter
      (fun c => decide ((y :: rest).countP (fun c2 => decide (c2.name = c.name)) = 1))) :
    c ∈ rest ∧ (y :: rest).countP (fun c2 => decide (c2.name = c.name)) = 1 := by
  have h := List.mem_filter.mp hc
  exact ⟨h.1, by simpa using h.2⟩

theorem retained_name_ne {y : Col} {rest : List Col} {c : Col}
    (hc : c ∈ rest.filter
      (fun c => decide ((y :: rest).countP (fun c2 => decide (c2.name = c.name)) = 1))) :
    c.name ≠ y.name := by
  obtain ⟨hmem, hcount⟩ := retained_countP hc
  intro heq
  rw [List.countP_cons] at hcount
  have hpos : 0 < rest.countP (fun c2 => decide (c2.name = c.name)) :=
    List.countP_pos.mpr ⟨c, hmem, by simp⟩
  rw [if_pos (by simpa using heq.symm)] at hcount
  omega

theorem retained_names_nodup (y : Col) (rest : List Col) :
    ((rest.filter
      (fun c => decide ((y :: rest).countP (fun c2 => decide (c2.name = c.name)) = 1))).map
        Col.name).Nodup := by
  rw [List.nodup_iff_count_le_one]
  intro a
  rw [count_names_eq_countP]
  by_cases hex : ∃ c ∈ rest.filter
      (fun c => decide ((y :: rest).countP (fun c2 => decide (c2.name = c.name)) = 1)),
      c.name = a
  · obtain ⟨c, hc, rfl⟩ := hex
    obtain ⟨hmem, hcount⟩ := retained_countP hc
    have hle : (rest.filter
        (fun c => decide ((y :: rest).countP (fun c2 => decide (c2.name = c.name)) = 1))).countP
          (fun c2 => decide (c2.name = c.name))
        ≤ rest.countP (fun c2 => decide (c2.name = c.name)) :=
      (List.filter_sublist rest).countP_le _
    rw [List.countP_cons] at hcount
    omega
  · push_neg at hex
    have : (rest.filter
        (fun c => decide ((y :: rest).countP (fun c2 => decide (c2.name = c.name)) = 1))).countP
          (fun c2 => decide (c2.name = a)) = 0 := by
      rw [List.countP_eq_zero]
      intro c hc
      simpa using hex c hc
    omega

theorem finalClean_inv (y : Col) (rest : List Col) (hyn : y.name = Cell.txt "Year")
    (hy : ∀ x ∈ y.cells, x.isNa = true ∨ x.isIntNum = true) :
    CleanedInv (dropAnyNaRows (finalSelect y rest)) := by
  classical
  set R := rest.filter
    (fun c => decide ((y :: rest).countP (fun c2 => decide (c2.name = c.name)) = 1)) with hR
  have hFcols : (finalSelect y rest).cols = y :: R.map coerceCol := rfl
  set F := finalSelect y rest with hF
  have hyF : y ∈ F.cols := by rw [hFcols]; exact List.mem_cons_self _ _
  have hcols : (dropAnyNaRows F).cols
      = (⟨y.name, filterIdx (rowMask F) y.cells⟩ : Col) ::
        (R.map coerceCol).map (fun c => ⟨c.name, filterIdx (rowMask F) c.cells⟩) := by
    simp [dropAnyNaRows, hFcols]
  refine ⟨⟨y.name, filterIdx (rowMask F) y.cells⟩,
    (R.map coerceCol).map (fun c => ⟨c.name, filterIdx (rowMask F) c.cells⟩),
    hcols, hyn, ?_, ?_, ?_⟩
  · -- Year cells are integers
    intro x hx
    have hmem := dropAnyNaRows_cell_mem hyF hx
    rcases hy x hmem.1 with hna | hint
    · rw [hmem.2] at hna; cases hna
    · exact hint
  · -- data columns: numeric cells, equal length
    intro c' hc'
    rw [List.mem_map] at hc'
    obtain ⟨cc, hcc, rfl⟩ := hc'
    rw [List.mem_map] at hcc
    obtain ⟨c, hcR, rfl⟩ := hcc
    have hccF : coerceCol c ∈ F.cols := by
      rw [hFcols]
      exact List.mem_cons_of_mem _ (List.mem_map_of_mem _ hcR)
    constructor
    · intro x hx
      have hmem := dropAnyNaRows_cell_mem hccF hx
      have hx2 : x ∈ (coerceCol c).cells := hmem.1
      simp only [coerceCol, List.mem_map] at hx2
      obtain ⟨w, _, hxw⟩ := hx2
      exact not_na_isNum_of_coerce hxw.symm hmem.2
    · -- lengths agree with the Year column
      have h1 : (⟨(coerceCol c).name, filterIdx (rowMask F) (coerceCol c).cells⟩ : Col)
          ∈ (dropAnyNaRows F).cols := by
        rw [hcols]
        refine List.mem_cons_of_mem _ ?_
        exact List.mem_map_of_mem _ (List.mem_map_of_mem _ hcR)
      have h2 : (⟨y.name, filterIdx (rowMask F) y.cells⟩ : Col) ∈ (dropAnyNaRows F).cols := by
        rw [hcols]; exact List.mem_cons_self _ _
      exact dropAnyNaRows_length_eq h1 h2
  · -- labels are pairwise distinct
    have hnames : frameNames (dropAnyNaRows F) = y.name :: R.map Col.name := by
      rw [frameNames, hcols]
      simp [List.map_map, Function.comp, coerceCol]
    rw [hnames, List.nodup_cons]
    constructor
    · intro hmem
      rw [List.mem_map] at hmem
      obtain ⟨c, hcR, hceq⟩ := hmem
      exact retained_name_ne (hR ▸ hcR) hceq
    · exact hR ▸ retained_names_nodup y rest

theorem cleanStage2_inv {g f : Frame} (h : cleanStage2 g = .ok f) : CleanedInv f := by
  obtain ⟨cols⟩ := g
  cases cols with
  | nil => simp [cleanStage2] at h
  | cons d0 drest =>
    simp only [cleanStage2] at h
    by_cases hg : ((⟨Cell.txt "Year", d0.cells⟩ : Col) :: drest.map (renameC d0.name)).countP
        (fun c => decide (c.name = Cell.txt "Year")) = 1
    · rw [if_pos hg] at h
      simp only [Except.ok.injEq] at h
      subst h
      have hred : finalSelectF (yearStage d0 drest)
          = finalSelect
            ⟨Cell.txt "Year",
              (filterIdx (yearMask (d0.cells.map coerceCell)) (d0.cells.map coerceCell)).map
                truncCell⟩
            ((drest.map (renameC d0.name)).map
              (fun c => ⟨c.name, filterIdx (yearMask (d0.cells.map coerceCell)) c.cells⟩)) := rfl
      rw [hred]
      apply finalClean_inv _ _ rfl
      intro x hx
      simp only [List.mem_map] at hx
      obtain ⟨z, hz, rfl⟩ := hx
      have hz2 : z ∈ d0.cells.map coerceCell := mem_of_mem_filterIdx hz
      simp only [List.mem_map] at hz2
      obtain ⟨w, _, rfl⟩ := hz2
      rcases coerceCell_na_or_num w with hna | ⟨q, hq⟩
      · left; rw [hna]; rfl
      · right; rw [hq]; exact truncCell_isIntNum q
    · rw [if_neg hg] at h
      cases h

theorem robust_clean_data_inv {df : Sheet} {f : Frame}
    (h : robust_clean_data df = .ok f) : CleanedInv f := by
  obtain ⟨cols⟩ := df
  cases cols with
  | nil => simp [robust_clean_data] at h
  | cons c0 crest =>
    simp only [robust_clean_data] at h
    by_cases h0 : c0.isEmpty
    · rw [if_pos h0] at h; cases h
    · rw [if_neg h0] at h
      exact cleanStage2_inv h

/-! Fixed-point lemmas: cleaning an already-cleaned nonempty frame. -/

theorem coerceCell_eq_self_of_isNum {x : Cell} (h : x.isNum = true) : coerceCell x = x := by
  cases x <;> simp_all [Cell.isNum, coerceCell]

theorem truncCell_eq_self_of_isIntNum {x : Cell} (h : x.isIntNum = true) : truncCell x = x := by
  cases x with
  | na => rfl
  | txt s => rfl
  | num q =>
    have hden : q.den = 1 := by simpa [Cell.isIntNum] using h
    simp only [truncCell, ratTrunc, hden, Nat.cast_one, Int.tdiv_one]
    rw [(Rat.den_eq_one_iff q).mp hden]

theorem headerSplit_rawify (f : Frame) : headerSplit (rawify f) = f := by
  obtain ⟨cols⟩ := f
  simp only [headerSplit, rawify, List.map_map]
  congr 1
  have : ∀ c ∈ cols,
      ((fun c => (⟨List.headD c Cell.na, List.tail c⟩ : Col)) ∘ fun c => c.name :: c.cells) c
        = id c := by
    intro c _
    simp [Function.comp]
  rw [List.map_congr_left this, List.map_id]

theorem dropAllNaCols_eq_self {f : Frame}
    (h : ∀ c ∈ f.cols, ∃ x ∈ c.cells, x.isNa = false) : dropAllNaCols f = f := by
  obtain ⟨cols⟩ := f
  simp only [dropAllNaCols]
  congr 1
  rw [List.filter_eq_self]
  intro c hc
  obtain ⟨x, hx, hna⟩ := h c hc
  rw [List.any_eq_true]
  exact ⟨x, hx, by simp [hna]⟩

theorem rowMask_true_of_all {f : Frame} {j : Nat}
    (hnona : ∀ c ∈ f.cols, ∀ x ∈ c.cells, x.isNa = false)
    (hlen : ∀ c ∈ f.cols, j < c.cells.length) : rowMask f j = true := by
  rw [rowMask, List.all_eq_true]
  intro c hc
  rw [List.getD_eq_getElem _ _ (hlen c hc)]
  simp [hnona c hc _ (List.getElem_mem _)]

theorem dropAnyNaRows_eq_self {f : Frame}
    (hnona : ∀ c ∈ f.cols, ∀ x ∈ c.cells, x.isNa = false)
    (hlen : ∀ c ∈ f.cols, c.cells.length = nRows f) : dropAnyNaRows f = f := by
  obtain ⟨cols⟩ := f
  simp only [dropAnyNaRows]
  congr 1
  have : ∀ c ∈ cols, (fun c => (⟨c.name, filterIdx (rowMask ⟨cols⟩) c.cells⟩ : Col)) c = id c := by
    intro c hc
    have hfix : filterIdx (rowMask ⟨cols⟩) c.cells = c.cells := by
      apply filterIdx_eq_self
      intro j hj
      apply rowMask_true_of_all hnona
      intro c' hc'
      rw [hlen c' hc']
      rw [hlen c hc] at hj
      exact hj
    simp [hfix]
  rw [List.map_congr_left this, List.map_id]

theorem yearStage_fixed {y : Col} {rest : List Col} (hyn : y.name = Cell.txt "Year")
    (hyint : ∀ x ∈ y.cells, x.isIntNum = true)
    (hrest : ∀ c ∈ rest, (∀ x ∈ c.cells, x.isNum = true) ∧ c.cells.length = y.cells.length)
    (hne : ∀ c ∈ rest, c.name ≠ y.name) :
    yearStage y rest = ⟨y :: rest⟩ := by
  have hyc : y.cells.map coerceCell = y.cells := by
    have : ∀ x ∈ y.cells, coerceCell x = id x := fun x hx =>
      coerceCell_eq_self_of_isNum (isIntNum_isNum (hyint x hx))
    rw [List.map_congr_left this, List.map_id]
  have hkeep : ∀ j, j < y.cells.length → yearMask y.cells j = true := by
    intro j hj
    rw [yearMask, List.getD_eq_getElem _ _ hj]
    simp [isNum_not_na (isIntNum_isNum (hyint _ (List.getElem_mem hj)))]
  have hyfix : filterIdx (yearMask y.cells) y.cells = y.cells := filterIdx_eq_self hkeep
  have hytr : y.cells.map truncCell = y.cells := by
    have : ∀ x ∈ y.cells, truncCell x = id x := fun x hx =>
      truncCell_eq_self_of_isIntNum (hyint x hx)
    rw [List.map_congr_left this, List.map_id]
  have hrename : rest.map (renameC y.name) = rest := by
    have : ∀ c ∈ rest, renameC y.name c = id c := by
      intro c hc
      simp [renameC, hne c hc]
    rw [List.map_congr_left this, List.map_id]
  have hrestfix : rest.map (fun c => (⟨c.name, filterIdx (yearMask y.cells) c.cells⟩ : Col))
      = rest := by
    have : ∀ c ∈ rest,
        (fun c => (⟨c.name, filterIdx (yearMask y.cells) c.cells⟩ : Col)) c = id c := by
      intro c hc
      have hfix : filterIdx (yearMask y.cells) c.cells = c.cells := by
        apply filterIdx_eq_self
        intro j hj
        rw [(hrest c hc).2] at hj
        exact hkeep j hj
      simp [hfix]
    rw [List.map_congr_left this, List.map_id]
  have hyeta : (⟨Cell.txt "Year", y.cells⟩ : Col) = y := by
    cases y with
    | mk n cs => simp at hyn; rw [hyn]
  simp only [yearStage, hyc, hyfix, hytr, hrename, hrestfix, hyeta]

theorem finalSelect_fixed {y : Col} {rest : List Col}
    (hcount : ∀ c ∈ rest, (y :: rest).countP (fun c2 => decide (c2.name = c.name)) = 1)
    (hnum : ∀ c ∈ rest, ∀ x ∈ c.cells, x.isNum = true) :
    finalSelect y rest = ⟨y :: rest⟩ := by
  have hfil : rest.filter
      (fun c => decide ((y :: rest).countP (fun c2 => decide (c2.name = c.name)) = 1)) = rest :=
    List.filter_eq_self.mpr (fun c hc => by simpa using hcount c hc)
  have hco : rest.map coerceCol = rest := by
    have : ∀ c ∈ rest, coerceCol c = id c := by
      intro c hc
      have : c.cells.map coerceCell = c.cells := by
        have h2 : ∀ x ∈ c.cells, coerceCell x = id x := fun x hx =>
          coerceCell_eq_self_of_isNum (hnum c hc x hx)
        rw [List.map_congr_left h2, List.map_id]
      simp [coerceCol, this]
    rw [List.map_congr_left this, List.map_id]
  simp only [finalSelect, hfil, hco]

theorem robust_clean_data_eq {s : Sheet} {c0 : List Cell} {crest : List (List Cell)}
    (hc : s.cols = c0 :: crest) (hne : c0 ≠ []) :
    robust_clean_data s = cleanStage2 (dropAnyNaRows (dropAllNaCols (headerSplit s))) := by
  obtain ⟨cols⟩ := s
  simp only at hc
  subst hc
  simp only [robust_clean_data]
  rw [if_neg (by simpa [List.isEmpty_iff] using hne)]

theorem cleanStage2_fixed {f : Frame} (hinv : CleanedInv f) : cleanStage2 f = .ok f := by
  obtain ⟨y, rest, hcols, hyn, hyint, hrest, hnodup⟩ := hinv
  have hnamesEq : frameNames f = y.name :: rest.map Col.name := by
    rw [frameNames, hcols]; rfl
  rw [hnamesEq, List.nodup_cons] at hnodup
  have hne : ∀ c ∈ rest, c.name ≠ y.name := by
    intro c hc heq
    exact hnodup.1 (heq ▸ List.mem_map_of_mem _ hc)
  have hcount : ∀ c ∈ rest, (y :: rest).countP (fun c2 => decide (c2.name = c.name)) = 1 := by
    intro c hc
    rw [← count_names_eq_countP c.name (y :: rest)]
    apply List.count_eq_one_of_mem
    · show (y.name :: rest.map Col.name).Nodup
      rw [List.nodup_cons]
      exact hnodup
    · exact List.mem_cons_of_mem _ (List.mem_map_of_mem _ hc)
  obtain ⟨cols⟩ := f
  simp only at hcols
  subst hcols
  simp only [cleanStage2]
  have hyeta : (⟨Cell.txt "Year", y.cells⟩ : Col) = y := by
    cases y with
    | mk n cs => simp at hyn; rw [hyn]
  have hrename : rest.map (renameC y.name) = rest := by
    have : ∀ c ∈ rest, renameC y.name c = id c := by
      intro c hc
      simp [renameC, hne c hc]
    rw [List.map_congr_left this, List.map_id]
  have hgate : ((⟨Cell.txt "Year", y.cells⟩ : Col) :: rest.map (renameC y.name)).countP
      (fun c => decide (c.name = Cell.txt "Year")) = 1 := by
    rw [hyeta, hrename, List.countP_cons]
    have hz : rest.countP (fun c => decide (c.name = Cell.txt "Year")) = 0 := by
      rw [List.countP_eq_zero]
      intro c hc
      simp only [decide_eq_true_eq]
      exact fun h => hne c hc (h.trans hyn.symm)
    simp [hz, hyn]
  rw [hgate]
  simp only [if_pos rfl]
  have hys : yearStage y rest = ⟨y :: rest⟩ := yearStage_fixed hyn hyint hrest hne
  rw [hys]
  have hfsf : finalSelectF ⟨y :: rest⟩ = finalSelect y rest := rfl
  rw [hfsf, finalSelect_fixed hcount (fun c hc => (hrest c hc).1)]
  have hnona : ∀ c ∈ ((⟨y :: rest⟩ : Frame)).cols, ∀ x ∈ c.cells, x.isNa = false := by
    intro c hc x hx
    rcases List.mem_cons.mp hc with rfl | hc2
    · exact isNum_not_na (isIntNum_isNum (hyint x hx))
    · exact isNum_not_na ((hrest c hc2).1 x hx)
  have hlen : ∀ c ∈ ((⟨y :: rest⟩ : Frame)).cols, c.cells.length = nRows ⟨y :: rest⟩ := by
    intro c hc
    rcases List.mem_cons.mp hc with rfl | hc2
    · rfl
    · exact (hrest c hc2).2
  rw [dropAnyNaRows_eq_self hnona hlen]
  simp

theorem nRows_of_cleanedInv {f : Frame} (hinv : CleanedInv f) :
    ∃ y rest, f.cols = y :: rest ∧ nRows f = y.cells.length := by
  obtain ⟨y, rest, hcols, _⟩ := hinv
  exact ⟨y, rest, hcols, by rw [nRows, hcols]; rfl⟩

theorem robust_clean_data_rawify {f : Frame} (hinv : CleanedInv f) (hne : 0 < nRows f) :
    robust_clean_data (rawify f) = .ok f := by
  obtain ⟨y, rest, hcols, hyn, hyint, hrest, hnodup⟩ := hinv
  have hnr : nRows f = y.cells.length := by rw [nRows, hcols]; rfl
  have hylen : 0 < y.cells.length := hnr ▸ hne
  have hc : (rawify f).cols = (y.name :: y.cells) :: rest.map (fun c => c.name :: c.cells) := by
    simp [rawify, hcols]
  rw [robust_clean_data_eq hc (by simp)]
  rw [headerSplit_rawify]
  have hnona : ∀ c ∈ f.cols, ∀ x ∈ c.cells, x.isNa = false := by
    intro c hcm x hx
    rw [hcols] at hcm
    rcases List.mem_cons.mp hcm with rfl | hc2
    · exact isNum_not_na (isIntNum_isNum (hyint x hx))
    · exact isNum_not_na ((hrest c hc2).1 x hx)
  have hlen : ∀ c ∈ f.cols, c.cells.length = nRows f := by
    intro c hcm
    rw [hcols] at hcm
    rcases List.mem_cons.mp hcm with rfl | hc2
    · exact hnr.symm
    · rw [(hrest c hc2).2, hnr]
  have hsome : ∀ c ∈ f.cols, ∃ x ∈ c.cells, x.isNa = false := by
    intro c hcm
    have h1 : 0 < c.cells.length := by rw [hlen c hcm]; exact hne
    obtain ⟨x, hx⟩ := List.exists_mem_of_ne_nil _ (List.ne_nil_of_length_pos h1)
    exact ⟨x, hx, hnona c hcm x hx⟩
  rw [dropAllNaCols_eq_self hsome, dropAnyNaRows_eq_self hnona hlen]
  exact cleanStage2_fixed ⟨y, rest, hcols, hyn, hyint, hrest, hnodup⟩

/-! Dictionary lemmas and the list of entries produced by the granger loop. -/

theorem dictInsert_fresh {d : List (String × α)} {k : String} (h : ∀ e ∈ d, e.1 ≠ k) (v : α) :
    dictInsert d k v = d ++ [(k, v)] := by
  rw [dictInsert, if_neg]
  simp only [List.any_eq_true, not_exists]
  intro e
  simp only [decide_eq_true_eq, not_and]
  exact h e

theorem dictInsertMany_append (d : List (String × α)) (l1 l2 : List (String × α)) :
    dictInsertMany (dictInsertMany d l1) l2 = dictInsertMany d (l1 ++ l2) := by
  rw [dictInsertMany, dictInsertMany, dictInsertMany, List.foldl_append]

theorem dictInsertMany_fresh {l d : List (String × α)}
    (hk : (l.map Prod.fst).Nodup) (hd : ∀ k ∈ l.map Prod.fst, ∀ e ∈ d, e.1 ≠ k) :
    dictInsertMany d l = d ++ l := by
  induction l generalizing d with
  | nil => simp [dictInsertMany]
  | cons e l ih =>
    obtain ⟨k, v⟩ := e
    rw [List.map_cons, List.nodup_cons] at hk
    have hstep : dictInsert d k v = d ++ [(k, v)] :=
      dictInsert_fresh (hd k (by simp) ) v
    have h2 : ∀ k' ∈ l.map Prod.fst, ∀ e ∈ d ++ [(k, v)], e.1 ≠ k' := by
      intro k' hk' e he
      rcases List.mem_append.mp he with he | he
      · exact hd k' (List.mem_cons_of_mem _ hk') e he
      · simp only [List.mem_singleton] at he
        subst he
        intro hkk
        exact hk.1 (hkk ▸ hk')
    calc dictInsertMany d ((k, v) :: l)
        = dictInsertMany (dictInsert d k v) l := rfl
      _ = dictInsertMany (d ++ [(k, v)]) l := by rw [hstep]
      _ = (d ++ [(k, v)]) ++ l := ih hk.2 h2
      _ = d ++ ((k, v) :: l) := by simp

theorem dictGet?_of_mem {l : List (String × α)} (hk : (l.map Prod.fst).Nodup) {k : String}
    {v : α} (h : (k, v) ∈ l) : dictGet? l k = some v := by
  induction l with
  | nil => cases h
  | cons e l ih =>
    obtain ⟨k', v'⟩ := e
    rw [List.map_cons, List.nodup_cons] at hk
    rcases List.mem_cons.mp h with heq | hmem
    · rw [Prod.mk.injEq] at heq
      obtain ⟨rfl, rfl⟩ := heq
      simp [dictGet?, List.find?_cons]
    · have hne : k' ≠ k := by
        intro hkk
        have hm2 : k ∈ l.map Prod.fst := List.mem_map_of_mem Prod.fst hmem
        rw [← hkk] at hm2
        exact hk.1 hm2
      rw [dictGet?, List.find?_cons]
      have : (decide ((k', v').1 = k)) = false := by simpa using hne
      rw [this]
      exact ih hk.2 hmem

/-! Correspondence between the nested loops of
`granger_causality_analysis` and a flat list of per-pair entries. -/

theorem granger_inner_fold (prim : GrangerPrim) (data : Frame) (ml : Nat) (a : Cell)
    (l : List Cell) :
    ∀ acc, l.foldl
      (fun results var2 =>
        if a = var2 then results
        else dictInsert results (grangerKey a var2) (grangerEntry prim data ml a var2)) acc
      = dictInsertMany acc
          ((l.filter (fun b => !decide (a = b))).map
            (fun b => (grangerKey a b, grangerEntry prim data ml a b))) := by
  induction l with
  | nil => intro acc; simp [dictInsertMany]
  | cons b l ih =>
    intro acc
    by_cases hab : a = b
    · rw [List.foldl_cons, if_pos hab, List.filter_cons]
      have : (!decide (a = b)) = false := by simp [hab]
      rw [this]
      simp only [Bool.false_eq_true, if_neg (by simp : ¬False)]
      exact ih acc
    · rw [List.foldl_cons, if_neg hab, List.filter_cons]
      have : (!decide (a = b)) = true := by simp [hab]
      rw [this]
      simp only [if_pos trivial, List.map_cons]
      exact ih (dictInsert acc (grangerKey a b) (grangerEntry prim data ml a b))

theorem granger_fold_eq (prim : GrangerPrim) (data : Frame) (ml : Nat) :
    ∀ (l : List Cell) (acc : List (String × CResult)),
      l.foldl
        (fun results var1 =>
          (grangerVars data).foldl
            (fun results var2 =>
              if var1 = var2 then results
              else dictInsert results (grangerKey var1 var2)
                (grangerEntry prim data ml var1 var2)) results) acc
      = dictInsertMany acc
          ((l.flatMap
            (fun a => ((grangerVars data).filter (fun b => !decide (a = b))).map (fun b => (a, b)))).map
            (fun p => (grangerKey p.1 p.2, grangerEntry prim data ml p.1 p.2))) := by
  intro l
  induction l with
  | nil => intro acc; simp [dictInsertMany]
  | cons a l ih =>
    intro acc
    rw [List.foldl_cons, granger_inner_fold prim data ml a (grangerVars data) acc, ih,
      List.flatMap_cons, List.map_append, ← dictInsertMany_append]
    congr 1
    rw [List.map_map]
    rfl

theorem granger_eq_table (prim : GrangerPrim) (data : Frame) (ml : Nat)
    (hkeys : (grangerKeyList data).Nodup) :
    granger_causality_analysis prim data ml = grangerTable prim data ml := by
  have h1 : granger_causality_analysis prim data ml
      = dictInsertMany [] (grangerTable prim data ml) := by
    rw [granger_causality_analysis]
    exact granger_fold_eq prim data ml (grangerVars data) []
  rw [h1]
  have h2 : ((grangerTable prim data ml).map Prod.fst).Nodup := by
    rw [grangerTable, List.map_map]
    exact hkeys
  rw [dictInsertMany_fresh h2 (by intro k _ e he; cases he)]
  rfl

theorem length_grangerPairs {vars : List Cell} (h : vars.Nodup) :
    (grangerPairs vars).length = vars.length * (vars.length - 1) := by
  rw [grangerPairs, List.length_flatMap]
  have hconst : ∀ a ∈ vars,
      (List.length ∘ fun a => (vars.filter (fun b => !decide (a = b))).map (fun b => (a, b))) a
        = vars.length - 1 := by
    intro a ha
    simp only [Function.comp, List.length_map]
    rw [← List.countP_eq_length_filter]
    have hsplit : vars.length
        = vars.countP (fun b => !decide (a = b)) + vars.countP (fun b => decide (a = b)) := by
      have h0 := List.length_eq_countP_add_countP (l := vars) (p := fun b => decide (a = b))
      have h1 : vars.countP (fun b => decide (¬decide (a = b) = true))
          = vars.countP (fun b => !decide (a = b)) := by
        apply List.countP_congr
        intro b _
        by_cases hab : a = b <;> simp [hab]
      rw [h1] at h0
      omega
    have hcnt : vars.countP (fun b => decide (a = b)) = 1 := by
      have h1 : List.count a vars = 1 := List.count_eq_one_of_mem h ha
      rw [List.count_eq_countP] at h1
      rw [← h1]
      apply List.countP_congr
      intro b _
      simp only [beq_iff_eq, decide_eq_true_eq]
      exact eq_comm
    omega
  rw [List.map_congr_left hconst]
  rw [List.map_const', List.sum_replicate, smul_eq_mul]

/-! Facts about the simulator and the validator. -/

theorem mapM_cellNum?_of_all {l : List Cell} (h : ∀ x ∈ l, x.isNum = true) :
    ∃ xs, l.mapM cellNum? = some xs ∧ xs.length = l.length := by
  induction l with
  | nil => exact ⟨[], rfl, rfl⟩
  | cons x l ih =>
    obtain ⟨q, hq⟩ : ∃ q, cellNum? x = some q := by
      have hx := h x (by simp)
      cases x with
      | num q => exact ⟨q, rfl⟩
      | na => simp [Cell.isNum] at hx
      | txt s => simp [Cell.isNum] at hx
    obtain ⟨xs, hxs, hlen⟩ := ih (fun y hy => h y (List.mem_cons_of_mem _ hy))
    refine ⟨q :: xs, ?_, by simp [hlen]⟩
    rw [List.mapM_cons, hq, hxs]
    rfl

theorem getCol_all_num {f : Frame} (hnum : ∀ c ∈ f.cols, ∀ x ∈ c.cells, x.isNum = true)
    (n : Cell) : ∀ x ∈ getCol f n, x.isNum = true := by
  intro x hx
  rw [getCol] at hx
  cases hfind : f.cols.find? (fun c => decide (c.name = n)) with
  | none => rw [hfind] at hx; simp at hx
  | some c =>
    rw [hfind] at hx
    simp at hx
    exact hnum c (List.mem_of_find?_eq_some hfind) x hx

theorem monte_total (rng : Rng) (data : Frame) (varname : Cell) (ns fp : Nat)
    (h : ∀ x ∈ getCol data varname, x.isNum = true) :
    ∃ r, monte_carlo_simulation rng data varname ns fp = .ok r := by
  simp only [monte_carlo_simulation]
  by_cases hlen : ((getCol data varname).filter (fun x => !x.isNa)).length < 2
  · rw [if_pos hlen]
    exact ⟨none, rfl⟩
  · rw [if_neg hlen]
    have hall : ∀ x ∈ (getCol data varname).filter (fun x => !x.isNa), x.isNum = true :=
      fun x hx => h x (List.mem_of_mem_filter hx)
    obtain ⟨xs, hxs, _⟩ := mapM_cellNum?_of_all hall
    rw [hxs]
    exact ⟨_, rfl⟩

theorem nRows_dropAnyNaRows (f : Frame) :
    nRows (dropAnyNaRows f) = (List.range (nRows f)).countP (rowMask f) := by
  obtain ⟨cols⟩ := f
  cases cols with
  | nil => simp [dropAnyNaRows, nRows]
  | cons c cs =>
    simp [dropAnyNaRows, nRows, length_filterIdx]

/-! Pipeline lemmas. -/

theorem cleanedInv_all_num {f : Frame} (hinv : CleanedInv f) :
    ∀ c ∈ f.cols, ∀ x ∈ c.cells, x.isNum = true := by
  obtain ⟨y, rest, hcols, _, hyint, hrest, _⟩ := hinv
  intro c hc x hx
  rw [hcols] at hc
  rcases List.mem_cons.mp hc with rfl | hc2
  · exact isIntNum_isNum (hyint x hx)
  · exact (hrest c hc2).1 x hx

theorem simsFold_total (rng : Rng) (cleaned : Frame) (ns fp : Nat)
    (hnum : ∀ c ∈ cleaned.cols, ∀ x ∈ c.cells, x.isNum = true) :
    ∀ (kv : List String) (acc : List (String × SimResult)),
      ∃ sims, simsFold rng cleaned ns fp kv acc = .ok sims := by
  intro kv
  induction kv with
  | nil => intro acc; exact ⟨acc, rfl⟩
  | cons var kvs ih =>
    intro acc
    simp only [simsFold]
    by_cases hmem : cleaned.cols.any (fun c => decide (c.name = Cell.txt var))
    · rw [if_pos hmem]
      obtain ⟨r, hr⟩ := monte_total rng cleaned (Cell.txt var) ns fp
        (getCol_all_num hnum (Cell.txt var))
      rw [hr]
      cases r with
      | none => exact ih _
      | some t =>
        obtain ⟨s, m, sd⟩ := t
        exact ih _
    · rw [if_neg hmem]
      exact ih _

theorem mem_dictInsert {d : List (String × α)} {k : String} {v : α} {e : String × α}
    (h : e ∈ dictInsert d k v) : e ∈ d ∨ e.1 = k := by
  rw [dictInsert] at h
  by_cases hany : d.any (fun e => decide (e.1 = k))
  · rw [if_pos hany] at h
    rw [List.mem_map] at h
    obtain ⟨e0, he0, heq⟩ := h
    by_cases he : e0.1 = k
    · rw [if_pos he] at heq
      right; rw [← heq]
    · rw [if_neg he] at heq
      left; rw [← heq]; exact he0
  · rw [if_neg hany] at h
    rcases List.mem_append.mp h with h2 | h2
    · left; exact h2
    · right; simp only [List.mem_singleton] at h2; rw [h2]

theorem find?_map_update {d : List (String × α)} {k' k : String} (hne : k' ≠ k) (v : α) :
    List.find? (fun e => decide (e.1 = k)) (d.map (fun e => if e.1 = k' then (k', v) else e))
      = List.find? (fun e => decide (e.1 = k)) d := by
  induction d with
  | nil => rfl
  | cons e d ih =>
    by_cases he : e.1 = k'
    · have h2 : ¬e.1 = k := by rw [he]; exact hne
      simp [List.find?_cons, he, hne, h2, ih]
    · simp only [List.map_cons, List.find?_cons, if_neg he]
      cases hek : decide (e.1 = k) <;> simp [hek, ih]

theorem dictGet?_dictInsert_ne {d : List (String × α)} {k' k : String} (hne : k' ≠ k) (v : α) :
    dictGet? (dictInsert d k' v) k = dictGet? d k := by
  rw [dictInsert]
  by_cases hany : d.any (fun e => decide (e.1 = k'))
  · rw [if_pos hany, dictGet?, dictGet?, find?_map_update hne]
  · rw [if_neg hany]
    rw [dictGet?, dictGet?, List.find?_append]
    have : List.find? (fun e => decide (e.1 = k)) [(k', v)] = none := by
      simp [hne]
    rw [this]
    simp

theorem dictGet?_append_fresh {d : List (String × α)} {k : String}
    (h : ∀ e ∈ d, e.1 ≠ k) (v : α) : dictGet? (d ++ [(k, v)]) k = some v := by
  rw [dictGet?, List.find?_append]
  have h1 : List.find? (fun e => decide (e.1 = k)) d = none := by
    rw [List.find?_eq_none]
    intro e he
    simpa using h e he
  rw [h1]
  simp [dictGet?]

theorem analyzeGo_ok (prim : GrangerPrim) (rng : Rng) (kv : List String) (ml ns fp : Nat) :
    ∀ (l : List (String × Sheet)) (acc : List (String × SheetResult)),
      (∀ p ∈ l, ∃ fr, robust_clean_data p.2 = .ok fr) →
      (∀ k ∈ l.map Prod.fst, ∀ e ∈ acc, e.1 ≠ k) →
      (l.map Prod.fst).Nodup →
      ∃ rep, analyzeGo prim rng kv ml ns fp l acc = .ok rep ∧
        rep.map Prod.fst = acc.map Prod.fst ++ l.map Prod.fst := by
  intro l
  induction l with
  | nil => intro acc _ _ _; exact ⟨acc, rfl, by simp⟩
  | cons p l ih =>
    intro acc hclean hacc hnd
    obtain ⟨s, df⟩ := p
    obtain ⟨fr, hfr⟩ := hclean (s, df) (by simp)
    rw [List.map_cons, List.nodup_cons] at hnd
    have hfresh : ∀ e ∈ acc, e.1 ≠ s := hacc s (by simp)
    have hacc2 : ∀ (X : SheetResult), ∀ k ∈ l.map Prod.fst,
        ∀ e ∈ acc ++ [(s, X)], e.1 ≠ k := by
      intro X k hk e he
      rcases List.mem_append.mp he with he | he
      · exact hacc k (List.mem_cons_of_mem _ hk) e he
      · simp only [List.mem_singleton] at he
        subst he
        intro heq
        exact hnd.1 (heq ▸ hk)
    have hclean2 : ∀ p ∈ l, ∃ fr, robust_clean_data p.2 = .ok fr :=
      fun p hp => hclean p (List.mem_cons_of_mem _ hp)
    simp only [analyzeGo, hfr]
    by_cases hval : validate_data fr 10 = true
    · rw [if_pos hval]
      have hinv := robust_clean_data_inv hfr
      obtain ⟨sims, hsims⟩ := simsFold_total rng fr ns fp (cleanedInv_all_num hinv) kv []
      simp only [hsims]
      rw [dictInsert_fresh hfresh]
      obtain ⟨rep, hrep, hkeys⟩ := ih (acc ++ [(s, _)]) hclean2 (hacc2 _) hnd.2
      exact ⟨rep, hrep, by rw [hkeys]; simp⟩
    · rw [if_neg hval]
      rw [dictInsert_fresh hfresh]
      obtain ⟨rep, hrep, hkeys⟩ := ih (acc ++ [(s, _)]) hclean2 (hacc2 _) hnd.2
      exact ⟨rep, hrep, by rw [hkeys]; simp⟩

theorem analyzeGo_preserves (prim : GrangerPrim) (rng : Rng) (kv : List String) (ml ns fp : Nat) :
    ∀ (l : List (String × Sheet)) (acc : List (String × SheetResult)) rep (k : String)
      (v : SheetResult),
      analyzeGo prim rng kv ml ns fp l acc = .ok rep →
      (∀ k' ∈ l.map Prod.fst, k' ≠ k) →
      dictGet? acc k = some v → dictGet? rep k = some v := by
  intro l
  induction l with
  | nil =>
    intro acc rep k v h _ hget
    simp only [analyzeGo, Except.ok.injEq] at h
    rw [← h]
    exact hget
  | cons p l ih =>
    intro acc rep k v h hk hget
    obtain ⟨s, df⟩ := p
    have hs : s ≠ k := hk s (by simp)
    cases hclean : robust_clean_data df with
    | error e => rw [analyzeGo, hclean] at h; cases h
    | ok cleaned =>
      simp only [analyzeGo, hclean] at h
      by_cases hval : validate_data cleaned 10 = true
      · rw [if_pos hval] at h
        cases hsims : simsFold rng cleaned ns fp kv [] with
        | error e => rw [hsims] at h; cases h
        | ok sims =>
          simp only [hsims] at h
          refine ih _ rep k v h (fun k' hk' => hk k' (List.mem_cons_of_mem _ hk')) ?_
          rw [dictGet?_dictInsert_ne hs]
          exact hget
      · rw [if_neg hval] at h
        refine ih _ rep k v h (fun k' hk' => hk k' (List.mem_cons_of_mem _ hk')) ?_
        rw [dictGet?_dictInsert_ne hs]
        exact hget

theorem analyzeGo_err_lookup (prim : GrangerPrim) (rng : Rng) (kv : List String)
    (ml ns fp : Nat) :
    ∀ (l : List (String × Sheet)) (acc : List (String × SheetResult)) rep (s : String)
      (df : Sheet) (fr : Frame),
      (s, df) ∈ l → (l.map Prod.fst).Nodup →
      (∀ k ∈ l.map Prod.fst, ∀ e ∈ acc, e.1 ≠ k) →
      robust_clean_data df = .ok fr → validate_data fr 10 = false →
      analyzeGo prim rng kv ml ns fp l acc = .ok rep →
      dictGet? rep s = some (SheetResult.err "Insufficient data for analysis") := by
  intro l
  induction l with
  | nil => intro acc rep s df fr hmem; cases hmem
  | cons p l ih =>
    intro acc rep s df fr hmem hnd hacc hfr hval h
    obtain ⟨s', df'⟩ := p
    rw [List.map_cons, List.nodup_cons] at hnd
    rcases List.mem_cons.mp hmem with heq | hmem2
    · rw [Prod.mk.injEq] at heq
      obtain ⟨rfl, rfl⟩ := heq
      simp only [analyzeGo, hfr] at h
      rw [if_neg (by simp [hval])] at h
      have hfresh : ∀ e ∈ acc, e.1 ≠ s := hacc s (by simp)
      rw [dictInsert_fresh hfresh] at h
      refine analyzeGo_preserves prim rng kv ml ns fp l _ rep s _ h ?_ ?_
      · intro k' hk' hkk
        exact hnd.1 (hkk ▸ hk')
      · exact dictGet?_append_fresh hfresh _
    · cases hclean' : robust_clean_data df' with
      | error e => rw [analyzeGo, hclean'] at h; cases h
      | ok cleaned' =>
        simp only [analyzeGo, hclean'] at h
        have hacc2 : ∀ (X : SheetResult), ∀ k ∈ l.map Prod.fst,
            ∀ e ∈ dictInsert acc s' X, e.1 ≠ k := by
          intro X k hk e he
          rcases mem_dictInsert he with he2 | he2
          · exact hacc k (List.mem_cons_of_mem _ hk) e he2
          · rw [he2]
            intro heq
            exact hnd.1 (heq ▸ hk)
        by_cases hval' : validate_data cleaned' 10 = true
        · rw [if_pos hval'] at h
          cases hsims : simsFold rng cleaned' ns fp kv [] with
          | error e => rw [hsims] at h; cases h
          | ok sims =>
            simp only [hsims] at h
            exact ih _ rep s df fr hmem2 hnd.2 (hacc2 _) hfr hval h
        · rw [if_neg hval'] at h
          exact ih _ rep s df fr hmem2 hnd.2 (hacc2 _) hfr hval h

/-! Remaining support lemmas for individual claims. -/

theorem monte_insufficient_iff (rng : Rng) (data : Frame) (varname : Cell) (ns fp : Nat) :
    monte_carlo_simulation rng data varname ns fp = .ok none
      ↔ ((getCol data varname).filter (fun x => !x.isNa)).length < 2 := by
  simp only [monte_carlo_simulation]
  by_cases hlen : ((getCol data varname).filter (fun x => !x.isNa)).length < 2
  · rw [if_pos hlen]
    simp [hlen]
  · rw [if_neg hlen]
    cases hm : ((getCol data varname).filter (fun x => !x.isNa)).mapM cellNum? with
    | none => simp [hlen]
    | some xs => simp [hlen]

theorem monte_shapes (rng : Rng) (data : Frame) (varname : Cell) (ns fp : Nat)
    (hnum : ∀ x ∈ getCol data varname, x.isNa = true ∨ x.isNum = true)
    (hlen : 2 ≤ ((getCol data varname).filter (fun x => !x.isNa)).length) :
    ∃ sims fm fsd, monte_carlo_simulation rng data varname ns fp = .ok (some (sims, fm, fsd))
      ∧ sims.length = ns ∧ (∀ row ∈ sims, row.length = fp)
      ∧ fm.length = fp ∧ fsd.length = fp := by
  have hall : ∀ x ∈ (getCol data varname).filter (fun x => !x.isNa), x.isNum = true := by
    intro x hx
    have h1 := List.mem_of_mem_filter hx
    have h2 := List.of_mem_filter hx
    rcases hnum x h1 with hna | hn
    · rw [hna] at h2; simp at h2
    · exact hn
  obtain ⟨xs, hxs, _⟩ := mapM_cellNum?_of_all hall
  simp only [monte_carlo_simulation]
  rw [if_neg (by omega), hxs]
  refine ⟨_, _, _, rfl, by simp, ?_, by simp, by simp⟩
  intro row hrow
  rw [List.mem_map] at hrow
  obtain ⟨i, _, rfl⟩ := hrow
  simp

theorem column_retention_core (y c : Col) (rest : List Col) (hy : c.name ≠ y.name) :
    c.name ∈ (finalSelect y rest).cols.map Col.name
      ↔ ∃ c2 ∈ rest, c2.name = c.name ∧
          (y :: rest).countP (fun c3 => decide (c3.name = c2.name)) = 1 := by
  simp only [finalSelect, List.map_cons, List.mem_cons]
  constructor
  · intro h
    rcases h with h | h
    · exact absurd h hy
    · rw [List.map_map, List.mem_map] at h
      obtain ⟨c2, hc2, hname⟩ := h
      obtain ⟨hc2m, hc2p⟩ := retained_countP hc2
      refine ⟨c2, hc2m, ?_, hc2p⟩
      simpa [Function.comp, coerceCol] using hname
  · intro ⟨c2, hc2m, hname, hcount⟩
    right
    rw [List.map_map, List.mem_map]
    refine ⟨c2, ?_, by simpa [Function.comp, coerceCol] using hname⟩
    rw [List.mem_filter]
    exact ⟨hc2m, by simpa using hcount⟩

theorem granger_few_vars_core (prim : GrangerPrim) (data : Frame) (ml : Nat)
    (h : data.cols.length ≤ 2) : granger_causality_analysis prim data ml = [] := by
  obtain ⟨cols⟩ := data
  match cols with
  | [] => simp [granger_causality_analysis, grangerVars]
  | [a] => simp [granger_causality_analysis, grangerVars]
  | [a, b] =>
    simp only [granger_causality_analysis, grangerVars]
    simp [List.foldl_cons]
  | a :: b :: c :: t => simp at h


/-- Claim C2, counterexample: `robust_clean_data` is claimed never to
raise, but on a raw sheet whose only row is the header (so every column
is entirely empty after the header substitution) the `rename` of
`columns[0]` raises an `IndexError`; a sheet with no rows at all already
raises at `df.iloc[0]`. -/
theorem claim2_counterexample :
    robust_clean_data sheetHdrOnly = .error "IndexError: index 0 is out of bounds (columns)"
    ∧ robust_clean_data ⟨[]⟩
        = .error "IndexError: single positional indexer is out-of-bounds" :=
  ⟨rfl, rfl⟩

/-- Claim C2, amended: whenever `robust_clean_data` returns (it can raise
on degenerate sheets), the returned frame's first column is named "Year"
and holds only integer values (the frame may be empty). -/
theorem claim2_clean_year_int (df : Sheet) (f : Frame)
    (h : robust_clean_data df = .ok f) :
    ∃ y rest, f.cols = y :: rest ∧ y.name = Cell.txt "Year"
      ∧ ∀ x ∈ y.cells, ∃ n : Int, x = Cell.num (n : Rat) := by
  obtain ⟨y, rest, hcols, hyn, hyint, _, _⟩ := robust_clean_data_inv h
  exact ⟨y, rest, hcols, hyn, fun x hx => isIntNum_exists_int (hyint x hx)⟩

/-- Witness for `claim2_clean_year_int` at the concrete sheet `sheetW`. -/
theorem claim2_clean_year_int_witness :
    ∃ y rest, frameW.cols = y :: rest ∧ y.name = Cell.txt "Year"
      ∧ ∀ x ∈ y.cells, ∃ n : Int, x = Cell.num (n : Rat) :=
  claim2_clean_year_int sheetW frameW (by decide)

/-- Claim C5, counterexample: cleaning `sheet6` succeeds and returns the
empty frame `frame6`; re-running `clean` on that output (written back out
with its header as first row) raises instead of returning the same frame,
so idempotence fails on empty cleaned frames. -/
theorem claim5_counterexample :
    robust_clean_data sheet6 = .ok frame6
    ∧ robust_clean_data (rawify frame6)
        = .error "IndexError: index 0 is out of bounds (columns)"
    ∧ robust_clean_data (rawify frame6) ≠ .ok frame6 :=
  ⟨by decide, by decide, by decide⟩

/-- Claim C5, amended: re-running `clean` on an already-cleaned frame
(treated as new raw input, header first) returns the very same frame,
provided the cleaned frame has at least one row; the empty cleaned frame
instead makes `clean` raise (see the counterexample). -/
theorem claim5_clean_idempotent (df : Sheet) (f : Frame)
    (h : robust_clean_data df = .ok f) (hne : 0 < nRows f) :
    robust_clean_data (rawify f) = .ok f :=
  robust_clean_data_rawify (robust_clean_data_inv h) hne

/-- Witness for `claim5_clean_idempotent` at the concrete sheet `sheetW`. -/
theorem claim5_clean_idempotent_witness :
    robust_clean_data (rawify frameW) = .ok frameW :=
  claim5_clean_idempotent sheetW frameW (by decide) (by decide)

/-- Claim C6, counterexample: the column "A" of `sheet6` has a single
value "x" for which numeric coercion fails (it becomes missing), yet the
column is retained in the cleaned output — `errors="coerce"` never
raises, so the loop appends every uniquely-labelled column and the final
row drop merely empties the frame.  This refutes "retained only if
coercion succeeds for at least one value". -/
theorem claim6_counterexample :
    robust_clean_data sheet6 = .ok frame6
    ∧ coerceCell (Cell.txt "x") = Cell.na
    ∧ (Cell.txt "A") ∈ frame6.cols.map Col.name :=
  ⟨by decide, by decide, by decide⟩

/-- Claim C6, amended: in the numeric-coercion stage a non-time-axis
column is retained if and only if its label occurs exactly once in the
frame — retention does not depend on the values at all; non-coercible
cells become missing and the final row drop removes their rows, and no
error is ever raised.  (Columns with duplicated labels are the ones
silently excluded, via the `except` branch.) -/
theorem claim6_column_retention (y c : Col) (rest : List Col)
    (hc : c ∈ rest) (hy : c.name ≠ y.name) :
    c.name ∈ (finalSelect y rest).cols.map Col.name
      ↔ (y :: rest).countP (fun c3 => decide (c3.name = c.name)) = 1 := by
  rw [column_retention_core y c rest hy]
  constructor
  · intro ⟨c2, _, hname, hcount⟩
    rw [← hname]
    exact hcount
  · intro hcount
    exact ⟨c, hc, rfl, hcount⟩

/-- Witness for `claim6_column_retention` at a concrete column pair. -/
theorem claim6_column_retention_witness :
    (Cell.txt "A") ∈
        (finalSelect ⟨Cell.txt "Year", []⟩ [⟨Cell.txt "A", [Cell.txt "x"]⟩]).cols.map Col.name
      ↔ ((⟨Cell.txt "Year", []⟩ : Col) :: [(⟨Cell.txt "A", [Cell.txt "x"]⟩ : Col)]).countP
          (fun c3 => decide (c3.name = Cell.txt "A")) = 1 :=
  claim6_column_retention ⟨Cell.txt "Year", []⟩ ⟨Cell.txt "A", [Cell.txt "x"]⟩
    [⟨Cell.txt "A", [Cell.txt "x"]⟩] (by decide) (by decide)

/-- Claim C3, counterexample: `frame3` (the cleaned output of `sheet3`)
has V = 2 distinct candidate variables "A" and "A causes A", but the two
ordered pairs produce the same dictionary key
"A causes A causes A", so the mapping has 1 entry instead of
V·(V−1) = 2. -/
theorem claim3_counterexample :
    robust_clean_data sheet3 = .ok frame3
    ∧ (grangerVars frame3).Nodup
    ∧ (grangerVars frame3).length = 2
    ∧ (granger_causality_analysis prim0 frame3 1).length = 1 :=
  ⟨by decide, by decide, by decide, by decide⟩

/-- Claim C3, amended: if the candidate variables are distinct and the
generated pair keys "var1 causes var2" are pairwise distinct (no
collisions, e.g. no variable name containing " causes "), the analysis
returns exactly V·(V−1) entries. -/
theorem claim3_pair_count (prim : GrangerPrim) (data : Frame) (ml : Nat)
    (hnd : (grangerVars data).Nodup) (hkeys : (grangerKeyList data).Nodup) :
    (granger_causality_analysis prim data ml).length
      = (grangerVars data).length * ((grangerVars data).length - 1) := by
  rw [granger_eq_table prim data ml hkeys, grangerTable, List.length_map,
    length_grangerPairs hnd]

/-- Witness for `claim3_pair_count` at the concrete frame `frameW3`. -/
theorem claim3_pair_count_witness :
    (granger_causality_analysis prim0 frameW3 3).length
      = (grangerVars frameW3).length * ((grangerVars frameW3).length - 1) :=
  claim3_pair_count prim0 frameW3 3 (by decide) (by decide)

/-- Claim C4, counterexample: on `frame3`, `prim1` raises for the pair
("A", "A causes A") — shown by the first conjunct — yet the final mapping
holds p-values, not a failure marker, at that pair's key: the colliding
reverse pair ("A causes A", "A") succeeded later and overwrote the
recorded marker.  So "records a failure marker as the pair's result" and
"every other pair still receives its own entry" both fail. -/
theorem claim4_counterexample :
    prim1 (selectCols frame3 [Cell.txt "A", Cell.txt "A causes A"]) 1 = .error "boom"
    ∧ granger_causality_analysis prim1 frame3 1
        = [("A causes A causes A", CResult.pvals [round4 0])] :=
  ⟨rfl, rfl⟩

/-- Claim C4, amended: when the pair keys are pairwise distinct (no
collisions), a primitive failure on one ordered pair is recorded as that
pair's failure marker carrying the error description, and every other
ordered pair still receives its own entry. -/
theorem claim4_error_isolated (prim : GrangerPrim) (data : Frame) (ml : Nat) (a b : Cell)
    (e : String) (hkeys : (grangerKeyList data).Nodup)
    (ha : a ∈ grangerVars data) (hb : b ∈ grangerVars data) (hab : a ≠ b)
    (herr : prim (selectCols data [a, b]) ml = .error e) :
    dictGet? (granger_causality_analysis prim data ml) (grangerKey a b)
        = some (CResult.err ("Error: " ++ e))
    ∧ ∀ c d, c ∈ grangerVars data → d ∈ grangerVars data → c ≠ d →
        ∃ v, dictGet? (granger_causality_analysis prim data ml) (grangerKey c d) = some v := by
  rw [granger_eq_table prim data ml hkeys]
  have hnodup : ((grangerTable prim data ml).map Prod.fst).Nodup := by
    rw [grangerTable, List.map_map]
    exact hkeys
  have hmem : ∀ c d, c ∈ grangerVars data → d ∈ grangerVars data → c ≠ d →
      (grangerKey c d, grangerEntry prim data ml c d) ∈ grangerTable prim data ml := by
    intro c d hc hd hcd
    rw [grangerTable, List.mem_map]
    refine ⟨(c, d), ?_, rfl⟩
    rw [grangerPairs, List.mem_flatMap]
    refine ⟨c, hc, ?_⟩
    rw [List.mem_map]
    exact ⟨d, List.mem_filter.mpr ⟨hd, by simp [hcd]⟩, rfl⟩
  constructor
  · have hent : grangerEntry prim data ml a b = CResult.err ("Error: " ++ e) := by
      rw [grangerEntry, herr]
    rw [← hent]
    exact dictGet?_of_mem hnodup (hmem a b ha hb hab)
  · intro c d hc hd hcd
    exact ⟨grangerEntry prim data ml c d, dictGet?_of_mem hnodup (hmem c d hc hd hcd)⟩

/-- Witness for `claim4_error_isolated`: `primE` raises for every pair of
`frameW3`; the pair ("A", "B") gets the failure marker and both pairs
have entries. -/
theorem claim4_error_isolated_witness :
    dictGet? (granger_causality_analysis primE frameW3 3)
        (grangerKey (Cell.txt "A") (Cell.txt "B"))
        = some (CResult.err ("Error: " ++ "singular matrix"))
    ∧ ∀ c d, c ∈ grangerVars frameW3 → d ∈ grangerVars frameW3 → c ≠ d →
        ∃ v, dictGet? (granger_causality_analysis primE frameW3 3) (grangerKey c d) = some v :=
  claim4_error_isolated primE frameW3 3 (Cell.txt "A") (Cell.txt "B") "singular matrix"
    (by decide) (by decide) (by decide) (by decide) rfl

/-- Claim C10, confirmed: with fewer than two candidate variables (at
most one column besides the first, time-axis one) the causality analysis
returns the empty mapping and, being a total function of the model,
raises no error; no entry and no failure marker is produced. -/
theorem claim10_few_variables (prim : GrangerPrim) (data : Frame) (ml : Nat)
    (h : data.cols.length ≤ 2) :
    granger_causality_analysis prim data ml = [] :=
  granger_few_vars_core prim data ml h

/-- Witness for `claim10_few_variables` at the concrete frame `frameW`. -/
theorem claim10_few_variables_witness :
    granger_causality_analysis prim0 frameW 3 = [] :=
  claim10_few_variables prim0 frameW 3 (by decide)

/-- Claim C7, confirmed: (1) the validator returns true iff the number of
rows surviving the any-null row drop is at least `min_rows`; (2) in the
pipeline, a sheet whose cleaned frame fails the validator (with the
default threshold 10) receives the sheet-level failure marker — its
entry is the marker for every primitive and random source, so neither
the causality analysis nor any simulation contributes to it. -/
theorem claim7_validator_gate :
    (∀ (f : Frame) (m : Nat), validate_data f m = true
      ↔ m ≤ (List.range (nRows f)).countP (rowMask f))
    ∧ (∀ (prim : GrangerPrim) (rng : Rng) (sheets : List (String × Sheet))
        (kv : List String) (ml ns fp : Nat) (rep : List (String × SheetResult))
        (s : String) (df : Sheet) (fr : Frame),
        (sheets.map Prod.fst).Nodup → (s, df) ∈ sheets →
        robust_clean_data df = .ok fr → validate_data fr 10 = false →
        analyze_sheets prim rng sheets kv ml ns fp = .ok rep →
        dictGet? rep s = some (SheetResult.err "Insufficient data for analysis")) := by
  constructor
  · intro f m
    rw [validate_data, decide_eq_true_eq, nRows_dropAnyNaRows]
  · intro prim rng sheets kv ml ns fp rep s df fr hnd hmem hfr hval h
    exact analyzeGo_err_lookup prim rng kv ml ns fp sheets [] rep s df fr hmem hnd
      (by intro k _ e he; cases he) hfr hval h

/-- Witness for `claim7_validator_gate`: `sheetW` cleans to a 2-row frame,
fails the 10-row threshold, and its report entry is the failure marker. -/
theorem claim7_validator_gate_witness :
    dictGet? [("s1", SheetResult.err "Insufficient data for analysis")] "s1"
      = some (SheetResult.err "Insufficient data for analysis") :=
  claim7_validator_gate.2 prim0 rng0 [("s1", sheetW)] [] 3 4 2
    [("s1", SheetResult.err "Insufficient data for analysis")] "s1" sheetW frameW
    (by decide) (by decide) (by decide) (by decide) (by decide)

/-- Claim C8, confirmed: for a variable column whose cells are numeric or
missing (any cleaned frame qualifies), with at least 2 non-missing
values, the simulator returns forecast mean and spread sequences of
length exactly `forecast_period` and a trial matrix of shape
`num_simulations × forecast_period`.  (The spread sequence carries the
squared `np.std`, see `listVar`.) -/
theorem claim8_simulate_shapes (rng : Rng) (data : Frame) (varname : Cell) (ns fp : Nat)
    (hvar : data.cols.countP (fun c => decide (c.name = varname)) ≤ 1)
    (hnum : ∀ x ∈ getCol data varname, x.isNa = true ∨ x.isNum = true)
    (hlen : 2 ≤ ((getCol data varname).filter (fun x => !x.isNa)).length) :
    ∃ sims fm fsd, monte_carlo_simulation rng data varname ns fp = .ok (some (sims, fm, fsd))
      ∧ sims.length = ns ∧ (∀ row ∈ sims, row.length = fp)
      ∧ fm.length = fp ∧ fsd.length = fp :=
  monte_shapes rng data varname ns fp hnum hlen

/-- Witness for `claim8_simulate_shapes` at `frameW`, variable "A". -/
theorem claim8_simulate_shapes_witness :
    ∃ sims fm fsd,
      monte_carlo_simulation rng0 frameW (Cell.txt "A") 3 2 = .ok (some (sims, fm, fsd))
      ∧ sims.length = 3 ∧ (∀ row ∈ sims, row.length = 2)
      ∧ fm.length = 2 ∧ fsd.length = 2 :=
  claim8_simulate_shapes rng0 frameW (Cell.txt "A") 3 2 (by decide) (by decide) (by decide)

/-- Claim C9, confirmed: the simulator returns the "insufficient data"
marker (modelled as `.ok none`, with no trial matrix) if and only if
fewer than 2 observations remain after discarding the variable's missing
entries. -/
theorem claim9_insufficient_iff (rng : Rng) (data : Frame) (varname : Cell) (ns fp : Nat)
    (hvar : data.cols.countP (fun c => decide (c.name = varname)) ≤ 1) :
    monte_carlo_simulation rng data varname ns fp = .ok none
      ↔ ((getCol data varname).filter (fun x => !x.isNa)).length < 2 :=
  monte_insufficient_iff rng data varname ns fp

/-- Witness for `claim9_insufficient_iff` at `frameSingle`, whose
variable "A" has the single historical value 5. -/
theorem claim9_insufficient_iff_witness :
    monte_carlo_simulation rng0 frameSingle (Cell.txt "A") 1000 10 = .ok none
      ↔ ((getCol frameSingle (Cell.txt "A")).filter (fun x => !x.isNa)).length < 2 :=
  claim9_insufficient_iff rng0 frameSingle (Cell.txt "A") 1000 10 (by decide)

/-- Claim C1, counterexample: `analyze_sheets` is claimed never to raise,
but a sheet whose only row is its header makes `robust_clean_data` raise
and the exception propagates out of the pipeline. -/
theorem claim1_counterexample :
    analyze_sheets prim0 rng0 [("s1", sheetHdrOnly)] [] 3 1000 10
      = .error "IndexError: index 0 is out of bounds (columns)" :=
  rfl

/-- Claim C1, amended: whenever every sheet's cleaning succeeds (it
raises on degenerate sheets, see the counterexample), `analyze_sheets`
returns a report with exactly one entry per requested sheet identifier,
in the input sheet order. -/
theorem claim1_pipeline_report (prim : GrangerPrim) (rng : Rng)
    (sheets : List (String × Sheet)) (kv : List String) (ml ns fp : Nat)
    (hkeys : (sheets.map Prod.fst).Nodup)
    (hclean : ∀ p ∈ sheets, ∃ fr, robust_clean_data p.2 = .ok fr) :
    ∃ rep, analyze_sheets prim rng sheets kv ml ns fp = .ok rep
      ∧ rep.map Prod.fst = sheets.map Prod.fst := by
  obtain ⟨rep, hrep, hk⟩ :=
    analyzeGo_ok prim rng kv ml ns fp sheets [] hclean (by intro k _ e he; cases he) hkeys
  exact ⟨rep, hrep, by simpa using hk⟩

/-- Witness for `claim1_pipeline_report` on a two-sheet input. -/
theorem claim1_pipeline_report_witness :
    ∃ rep, analyze_sheets prim0 rng0 [("s1", sheetW), ("s2", sheet3)] [] 3 4 2 = .ok rep
      ∧ rep.map Prod.fst = ["s1", "s2"] :=
  claim1_pipeline_report prim0 rng0 [("s1", sheetW), ("s2", sheet3)] [] 3 4 2 (by decide)
    (by
      intro p hp
      rcases List.mem_cons.mp hp with rfl | hp2
      · exact ⟨frameW, by decide⟩
      · rcases List.mem_cons.mp hp2 with rfl | hp3
        · exact ⟨frame3, by decide⟩
        · cases hp3)
